import Mathlib

/-!
Verification development for the protoc-gen-cobra code generator.

The definitions below are a shallow embedding of the generator plugin
(`client` package), of its `iocodec` codec registry, and of the control
flow of the code it emits.  String manipulation from the Go source
(`strings.Split`, `strings.Trim`, `strings.Join`, `path.Split`,
`filepath.Ext`) is modelled over `List Char`.
-/

/-- Character-level model of `strings.Split(s, sep)` for a one-character
separator: splits at every occurrence, keeping empty fields. -/
def splitOnChar (c : Char) : List Char → List (List Char)
  | [] => [[]]
  | x :: xs =>
    match splitOnChar c xs with
    | [] => [[]]
    | h :: t => if x = c then [] :: h :: t else (x :: h) :: t

/-- Character-level model of `strings.Trim(s, cutset)` for a one-character
cutset: drops the character from both ends. -/
def trimChar (c : Char) (l : List Char) : List Char :=
  ((l.dropWhile (fun x => x = c)).reverse.dropWhile (fun x => x = c)).reverse

/-- Character-level model of the file component of `path.Split(s)`:
everything after the final slash. -/
def lastComp (l : List Char) : List Char :=
  (l.reverse.takeWhile (fun x => x ≠ '/')).reverse

/-- Character-level model of `strings.Join(l, sep)` for a one-character
separator. -/
def joinWith (c : Char) : List (List Char) → List Char
  | [] => []
  | [x] => x
  | x :: y :: t => x ++ c :: joinWith c (y :: t)

/-- The dotted segments of a method input-type reference, as computed by
`inputNames`: take the part after the last `/`, trim the dots at both
ends, split on `.`. -/
def typeSegs (s : String) : List (List Char) :=
  splitOnChar ('.') (trimChar ('.') (lastComp s.data))

/-- Number of dotted segments of a type reference. -/
def segCount (s : String) : Nat :=
  (typeSegs s).length

/-- Embedding of `inputNames` (client plugin): decomposes a type reference
such as `.pkg.subpkg.Type` into the derived import alias
(`pkg_subpkg_pb`), the defining package (`pkg.subpkg`) and the bare type
name (`Type`).  Fewer than two segments yield three empty strings. -/
def inputNames (s : String) : String × String × String :=
  let typz := typeSegs s
  if typz.length < 2 then ("", "", "")
  else
    let pkgSegs := typz.take (typz.length - 1)
    (String.mk (joinWith ('_') pkgSegs ++ ('_' :: 'p' :: 'b' :: [])),
     String.mk (joinWith ('.') pkgSegs),
     String.mk (typz.getLastD []))

/-- Embedding of the alias adjustment in `generateSubcommand`: the import
alias is blanked when the defining package equals the file's own package.
Modelled from the spec: `file.PackageName()` lives in the repository's
`generator` package, which is absent from the sources at hand; the spec
states that a same-package reference resolves to no alias, so the file's
package name is taken to be its protobuf package string. -/
def subcommandInputPackage (filePkg : String) (s : String) : String :=
  let r := inputNames s
  if r.2.1 = filePkg then "" else r.1

/-- The type reference rendered by the subcommand template
(`var v {{ with .InputPackage }}{{ . }}.{{ end }}{{.InputType}}`). -/
def subcommandTypeRef (filePkg : String) (s : String) : String :=
  let ip := subcommandInputPackage filePkg s
  let r := inputNames s
  if ip = "" then r.2.2 else ip ++ "." ++ r.2.2

/-- Embedding of the error behaviour of `generateSubcommand`: the only
error path is a template-execution failure, which cannot occur for the
fixed, well-formed template, so rendering always succeeds. -/
def generateSubcommandRef (filePkg : String) (s : String) : Except String String :=
  Except.ok (subcommandTypeRef filePkg s)

/-- A list-backed string is nonempty when its character list is. -/
theorem stringMk_ne_empty (l : List Char) (h : l ≠ []) : String.mk l ≠ "" := by
  intro hc
  exact h (congrArg String.data hc)

/-- A type reference with fewer than two dotted segments decomposes into
three empty strings. -/
theorem inputNames_short (s : String) (h : segCount s < 2) :
    inputNames s = ("", "", "") := by
  unfold inputNames
  simp only [segCount] at h
  rw [if_pos h]

/-- On a reference with at least two segments the derived alias is the
underscore-joined package suffixed with `_pb`, hence nonempty. -/
theorem inputNames_alias_ne (s : String) (h : ¬ segCount s < 2) :
    (inputNames s).1 ≠ "" := by
  unfold inputNames
  simp only [segCount] at h
  rw [if_neg h]
  exact stringMk_ne_empty _ (by simp)

/-- A nonempty decomposed package implies the reference had at least two
segments. -/
theorem segCount_ge_of_pkg_ne (s : String) (h : (inputNames s).2.1 ≠ "") :
    ¬ segCount s < 2 := by
  intro hs
  rw [inputNames_short s hs] at h
  exact h rfl

/-- Replacement of dots by underscores, one character at a time. -/
def swapDU (c : Char) : Char :=
  if c = '.' then '_' else c

/-- Replacement of underscores by dots, one character at a time. -/
def swapUD (c : Char) : Char :=
  if c = '_' then '.' else c

/-- Mapping a function that fixes every element leaves a list unchanged. -/
theorem mapSelf {α : Type} (f : α → α) (l : List α) (h : ∀ x ∈ l, f x = x) :
    l.map f = l := by
  induction l with
  | nil => rfl
  | cons x t ih =>
    simp only [List.map_cons]
    rw [h x (by simp), ih (fun y hy => h y (by simp [hy]))]

/-- Splitting never produces the empty list of segments. -/
theorem splitOnChar_ne_nil (c : Char) (l : List Char) : splitOnChar c l ≠ [] := by
  cases l with
  | nil => simp [splitOnChar]
  | cons x xs =>
    unfold splitOnChar
    cases h : splitOnChar c xs with
    | nil => simp
    | cons h t =>
      by_cases hx : x = c <;> simp [hx]

/-- No segment produced by splitting on a character contains that
character. -/
theorem splitOnChar_not_mem (c : Char) (l : List Char) :
    ∀ seg ∈ splitOnChar c l, c ∉ seg := by
  induction l with
  | nil =>
    intro seg hseg
    simp [splitOnChar] at hseg
    simp [hseg]
  | cons x xs ih =>
    intro seg hseg
    unfold splitOnChar at hseg
    cases h : splitOnChar c xs with
    | nil => exact absurd h (splitOnChar_ne_nil c xs)
    | cons hh tt =>
      rw [h] at hseg
      dsimp only at hseg
      by_cases hx : x = c
      · rw [if_pos hx] at hseg
        simp only [List.mem_cons] at hseg
        rcases hseg with h1 | h1 | h1
        · simp [h1]
        · exact ih seg (by rw [h]; simp [h1])
        · exact ih seg (by rw [h]; simp [h1])
      · rw [if_neg hx] at hseg
        simp only [List.mem_cons] at hseg
        rcases hseg with h1 | h1
        · subst h1
          intro hc
          rcases List.mem_cons.mp hc with hc1 | hc1
          · exact hx hc1.symm
          · exact ih hh (by rw [h]; simp) hc1
        · exact ih seg (by rw [h]; simp [h1])

/-- Swapping dots for underscores turns a dot-join into an
underscore-join when no segment contains a dot. -/
theorem joinWith_swap (segs : List (List Char))
    (h : ∀ seg ∈ segs, ('.') ∉ seg) :
    (joinWith ('.') segs).map swapDU = joinWith ('_') segs := by
  induction segs with
  | nil => rfl
  | cons x t ih =>
    cases t with
    | nil =>
      simp only [joinWith]
      exact mapSelf _ _ (fun a ha => by
        have : a ≠ '.' := fun hc => h x (by simp) (hc ▸ ha)
        simp [swapDU, this])
    | cons y tt =>
      simp only [joinWith, List.map_append, List.map_cons]
      rw [mapSelf swapDU x (fun a ha => by
            have : a ≠ '.' := fun hc => h x (by simp) (hc ▸ ha)
            simp [swapDU, this]),
          ih (fun seg hseg => h seg (by simp [hseg]))]
      rfl

/-- Undoing the swap recovers an underscore-free list. -/
theorem swapUD_swapDU (l : List Char) (h : ('_') ∉ l) :
    (l.map swapDU).map swapUD = l := by
  induction l with
  | nil => rfl
  | cons x t ih =>
    simp only [List.map_cons]
    have hx : x ≠ '_' := fun hc => h (by simp [hc])
    have ht : ('_') ∉ t := fun hc => h (by simp [hc])
    by_cases hd : x = '.'
    · subst hd
      rw [ih ht]
      rfl
    · have : swapDU x = x := by simp [swapDU, hd]
      rw [this]
      have : swapUD x = x := by simp [swapUD, hx]
      rw [this, ih ht]

/-- On a reference with at least two segments the alias is the package
with dots swapped for underscores, suffixed with `_pb`. -/
theorem inputNames_alias_eq (s : String) (h : ¬ segCount s < 2) :
    (inputNames s).1.data
      = (inputNames s).2.1.data.map swapDU ++ ('_' :: 'p' :: 'b' :: []) := by
  unfold inputNames
  simp only [segCount] at h
  rw [if_neg h]
  simp only
  rw [joinWith_swap]
  intro seg hseg
  exact splitOnChar_not_mem ('.') _ seg (List.mem_of_mem_take hseg)

/-- Strings with equal character lists are equal. -/
theorem stringData_inj (a b : String) (h : a.data = b.data) : a = b := by
  cases a
  cases b
  simp_all

/-- C4 counterexample: the defining packages `a.b_c` and `a_b.c` are
distinct, yet both derive the import alias `a_b_c_pb`, because replacing
dots by underscores is not injective on package paths whose segments may
themselves contain underscores. -/
theorem alias_collision_counterexample :
    inputNames ".a.b_c.T" = ("a_b_c_pb", "a.b_c", "T")
      ∧ inputNames ".a_b.c.T" = ("a_b_c_pb", "a_b.c", "T")
      ∧ ("a.b_c" : String) ≠ "a_b.c"
      ∧ (inputNames ".a.b_c.T").1 = (inputNames ".a_b.c.T").1 := by
  exact ⟨by decide, by decide, by decide, by decide⟩

/-- C4 amended: for two method input types whose defining packages are
distinct, nonempty and free of underscores, the derived import aliases
(`<package with dots replaced by underscores>_pb`) are distinct. -/
theorem alias_distinct_of_underscore_free (s₁ s₂ : String)
    (hne : (inputNames s₁).2.1 ≠ (inputNames s₂).2.1)
    (h₁ : (inputNames s₁).2.1 ≠ "") (h₂ : (inputNames s₂).2.1 ≠ "")
    (hu₁ : ('_') ∉ (inputNames s₁).2.1.data)
    (hu₂ : ('_') ∉ (inputNames s₂).2.1.data) :
    (inputNames s₁).1 ≠ (inputNames s₂).1 := by
  intro hc
  apply hne
  have hl₁ := inputNames_alias_eq s₁ (segCount_ge_of_pkg_ne s₁ h₁)
  have hl₂ := inputNames_alias_eq s₂ (segCount_ge_of_pkg_ne s₂ h₂)
  have hdata : (inputNames s₁).1.data = (inputNames s₂).1.data :=
    congrArg String.data hc
  rw [hl₁, hl₂] at hdata
  have hmap := List.append_cancel_right hdata
  have := congrArg (List.map swapUD) hmap
  rw [swapUD_swapDU _ hu₁, swapUD_swapDU _ hu₂] at this
  exact stringData_inj _ _ this

/-- Witness for the amended C4 theorem at concrete references. -/
theorem alias_distinct_witness :
    (inputNames ".bank.v1.DepositRequest").1 ≠ (inputNames ".cache.v2.GetRequest").1 :=
  alias_distinct_of_underscore_free ".bank.v1.DepositRequest" ".cache.v2.GetRequest"
    (by decide) (by decide) (by decide) (by decide) (by decide)

/-- C8: the type reference `.cache.v2.sub.GetRequest` decomposes into
alias `cache_v2_sub_pb`, package `cache.v2.sub` and type `GetRequest`. -/
theorem cache_type_reference_resolution :
    inputNames ".cache.v2.sub.GetRequest" = ("cache_v2_sub_pb", "cache.v2.sub", "GetRequest") := by
  decide

/-- C9: the alias carried into the subcommand template is empty exactly
when the defining package equals the file's package or the reference has
fewer than two dotted segments; a short reference yields empty package
and alias, and the `.bank.v1.DepositRequest` scenario resolves with no
alias in a `bank.v1` file. -/
theorem empty_alias_characterization :
    (∀ fpkg s, subcommandInputPackage fpkg s = ""
        ↔ ((inputNames s).2.1 = fpkg ∨ segCount s < 2))
      ∧ (∀ s, segCount s < 2 → inputNames s = ("", "", ""))
      ∧ inputNames ".bank.v1.DepositRequest" = ("bank_v1_pb", "bank.v1", "DepositRequest")
      ∧ subcommandInputPackage "bank.v1" ".bank.v1.DepositRequest" = "" := by
  refine ⟨?_, fun s h => inputNames_short s h, by decide, by decide⟩
  intro fpkg s
  unfold subcommandInputPackage
  by_cases hs : segCount s < 2
  · rw [inputNames_short s hs]
    simp only
    constructor
    · intro _
      exact Or.inr hs
    · intro _
      by_cases hp : ("" : String) = fpkg
      · rw [if_pos hp]
      · rw [if_neg hp]
  · constructor
    · intro h
      by_cases hp : (inputNames s).2.1 = fpkg
      · exact Or.inl hp
      · rw [if_neg hp] at h
        exact absurd h (inputNames_alias_ne s hs)
    · intro h
      rcases h with h | h
      · rw [if_pos h]
      · exact absurd h hs

/-- Go-style quoting as performed by `strconv.Quote` on the import paths
occurring here (no escapable characters). -/
def goQuote (s : String) : String :=
  "\"" ++ s ++ "\""

/-- Model of `path.Join` for the two-argument uses in the generator. -/
def pathJoin (a b : String) : String :=
  if a = "" then b else a ++ "/" ++ b

/-- A file imported by the file under generation: its protobuf package
and its optional `go_package` option. -/
structure ImportedFile where
  pkg : String
  goPackageOpt : Option String

/-- Embedding of the `importPathByPackage` map built by
`GenerateImports`: imports whose package equals the file's own package
are skipped; for the rest the quoted `go_package` option (or the quoted
joined import prefix and package) is recorded, later entries
overwriting earlier ones. -/
def importPathByPackage (ip filePkg : String) (imports : List ImportedFile)
    (p : String) : Option String :=
  match ((imports.filter (fun i => !(i.pkg == filePkg))).reverse.find?
      (fun i => i.pkg == p)) with
  | none => none
  | some i =>
    some (goQuote (match i.goPackageOpt with
      | some g => g
      | none => pathJoin ip i.pkg))

/-- Insert-or-replace on an association list, modelling assignment into a
Go map. -/
def upsert (k v : String) : List (String × String) → List (String × String)
  | [] => [(k, v)]
  | (k0, v0) :: t => if k0 = k then (k, v) :: t else (k0, v0) :: upsert k v t

/-- One iteration of the method loop in `GenerateImports`: the input type
is decomposed, and an entry keyed by the derived alias is recorded only
when the defining package is found among the imported files. -/
def derivedStep (f : String → Option String) (acc : List (String × String))
    (s : String) : List (String × String) :=
  let r := inputNames s
  match f r.2.1 with
  | some p => upsert r.1 p acc
  | none => acc

/-- The `importedPackagesByName` map of `GenerateImports`, accumulated
over all method input types of the file. -/
def derivedImportsAssoc (ip filePkg : String) (imports : List ImportedFile)
    (methodInputs : List String) : List (String × String) :=
  methodInputs.foldl (derivedStep (importPathByPackage ip filePkg imports)) []

/-- C5 counterexample: in a file of package `mypkg` with no imports, the
method input type `.other.Type` matches no imported file, so no import
line is recorded for it, yet the subcommand still renders the reference
WITH the derived alias prefix (`other_pb.Type`), not unaliased. -/
theorem unmatched_package_ref_aliased :
    derivedImportsAssoc "" "mypkg" [] [".other.Type"] = []
      ∧ subcommandTypeRef "mypkg" ".other.Type" = "other_pb.Type"
      ∧ subcommandInputPackage "mypkg" ".other.Type" = "other_pb"
      ∧ ("other_pb.Type" : String) ≠ "Type" := by
  exact ⟨rfl, by decide, by decide, by decide⟩

/-- C5 amended: a method input type whose defining package differs from
the file's package and matches no imported file contributes no
derived-import entry, is not a generation error, and the subcommand references
the type WITH its derived alias prefix (leaving the dangling alias to the
output build stage). -/
theorem unmatched_package_behavior (ip filePkg s : String)
    (imports : List ImportedFile) (acc : List (String × String))
    (hne : (inputNames s).2.1 ≠ filePkg)
    (hpk : (inputNames s).2.1 ≠ "")
    (hnomatch : ∀ i ∈ imports, i.pkg ≠ (inputNames s).2.1) :
    subcommandInputPackage filePkg s = (inputNames s).1
      ∧ (inputNames s).1 ≠ ""
      ∧ derivedStep (importPathByPackage ip filePkg imports) acc s = acc
      ∧ generateSubcommandRef filePkg s
          = Except.ok ((inputNames s).1 ++ "." ++ (inputNames s).2.2) := by
  have halias : subcommandInputPackage filePkg s = (inputNames s).1 := by
    unfold subcommandInputPackage
    rw [if_neg hne]
  have hali_ne : (inputNames s).1 ≠ "" :=
    inputNames_alias_ne s (segCount_ge_of_pkg_ne s hpk)
  have hfind : importPathByPackage ip filePkg imports (inputNames s).2.1 = none := by
    unfold importPathByPackage
    rw [List.find?_eq_none.mpr]
    intro i hi
    have hi' : i ∈ imports := List.mem_of_mem_filter (List.mem_reverse.mp hi)
    simp only [beq_iff_eq]
    exact hnomatch i hi'
  refine ⟨halias, hali_ne, ?_, ?_⟩
  · unfold derivedStep
    simp only [hfind]
  · unfold generateSubcommandRef subcommandTypeRef
    rw [halias, if_neg hali_ne]

/-- Witness for the amended C5 theorem at a concrete unmatched
cross-package reference. -/
theorem unmatched_package_witness :
    subcommandInputPackage "mypkg" ".other.Sub.Type" = (inputNames ".other.Sub.Type").1
      ∧ (inputNames ".other.Sub.Type").1 ≠ ""
      ∧ derivedStep (importPathByPackage "" "mypkg" [⟨"mypkg", none⟩]) [] ".other.Sub.Type" = []
      ∧ generateSubcommandRef "mypkg" ".other.Sub.Type"
          = Except.ok ((inputNames ".other.Sub.Type").1 ++ "." ++ (inputNames ".other.Sub.Type").2.2) :=
  unmatched_package_behavior "" "mypkg" ".other.Sub.Type" [⟨"mypkg", none⟩] []
    (by decide) (by decide)
    (by intro i hi; simp only [List.mem_singleton] at hi; rw [hi]; decide)

/-- Characters with equal code points are equal. -/
theorem charToNat_inj (a b : Char) (h : a.toNat = b.toNat) : a = b :=
  Char.ext (UInt32.ext h)

/-- Kernel-computable lexicographic comparison of character lists,
modelling the ordering used by `sort.Strings`. -/
def lexLe : List Char → List Char → Bool
  | [], _ => true
  | _ :: _, [] => false
  | a :: as, b :: bs => if a = b then lexLe as bs else decide (a.toNat < b.toNat)

/-- String comparison backing the deterministic sorting of emitted
names. -/
def strLe (a b : String) : Bool :=
  lexLe a.data b.data

theorem lexLe_total (a b : List Char) : lexLe a b = true ∨ lexLe b a = true := by
  induction a generalizing b with
  | nil => exact Or.inl rfl
  | cons x as ih =>
    cases b with
    | nil => exact Or.inr rfl
    | cons y bs =>
      by_cases hxy : x = y
      · subst hxy
        simp only [lexLe, if_pos rfl]
        exact ih bs
      · have hyx : y ≠ x := fun hc => hxy hc.symm
        simp only [lexLe, if_neg hxy, if_neg hyx, decide_eq_true_eq]
        have : x.toNat ≠ y.toNat := fun hc => hxy (charToNat_inj x y hc)
        omega

theorem lexLe_trans (a b c : List Char) (h₁ : lexLe a b = true)
    (h₂ : lexLe b c = true) : lexLe a c = true := by
  induction a generalizing b c with
  | nil => rfl
  | cons x as ih =>
    cases b with
    | nil => simp [lexLe] at h₁
    | cons y bs =>
      cases c with
      | nil => simp [lexLe] at h₂
      | cons z cs =>
        by_cases hxy : x = y
        · subst hxy
          rw [lexLe, if_pos rfl] at h₁
          by_cases hyz : x = z
          · subst hyz
            rw [lexLe, if_pos rfl] at h₂ ⊢
            exact ih bs cs h₁ h₂
          · rw [lexLe, if_neg hyz] at h₂ ⊢
            exact h₂
        · rw [lexLe, if_neg hxy, decide_eq_true_eq] at h₁
          by_cases hyz : y = z
          · subst hyz
            rw [lexLe, if_neg hxy, decide_eq_true_eq]
            exact h₁
          · rw [lexLe, if_neg hyz, decide_eq_true_eq] at h₂
            have hxz : x ≠ z := by
              intro hc
              subst hc
              omega
            rw [lexLe, if_neg hxz, decide_eq_true_eq]
            omega

theorem lexLe_antisymm (a b : List Char) (h₁ : lexLe a b = true)
    (h₂ : lexLe b a = true) : a = b := by
  induction a generalizing b with
  | nil =>
    cases b with
    | nil => rfl
    | cons y bs => simp [lexLe] at h₂
  | cons x as ih =>
    cases b with
    | nil => simp [lexLe] at h₁
    | cons y bs =>
      by_cases hxy : x = y
      · subst hxy
        rw [lexLe, if_pos rfl] at h₁ h₂
        rw [ih bs h₁ h₂]
      · have hyx : y ≠ x := fun hc => hxy hc.symm
        rw [lexLe, if_neg hxy, decide_eq_true_eq] at h₁
        rw [lexLe, if_neg hyx, decide_eq_true_eq] at h₂
        omega

instance : IsTotal String (fun a b => strLe a b = true) :=
  ⟨fun a b => lexLe_total a.data b.data⟩

instance : IsTrans String (fun a b => strLe a b = true) :=
  ⟨fun a b c => lexLe_trans a.data b.data c.data⟩

instance : IsAntisymm String (fun a b => strLe a b = true) :=
  ⟨fun a b h₁ h₂ => stringData_inj a b (lexLe_antisymm a.data b.data h₁ h₂)⟩

/-- Model of `sort.Strings`. -/
def sortStrings (l : List String) : List String :=
  List.insertionSort (fun a b => strLe a b = true) l

/-- Sorting is invariant under permutation of its input, the heart of the
byte-reproducibility argument. -/
theorem sortStrings_perm_eq (l₁ l₂ : List String) (h : l₁.Perm l₂) :
    sortStrings l₁ = sortStrings l₂ :=
  List.eq_of_perm_of_sorted
    ((List.perm_insertionSort _ l₁).trans (h.trans (List.perm_insertionSort _ l₂).symm))
    (List.sorted_insertionSort _ l₁) (List.sorted_insertionSort _ l₂)

/-- The fixed support-package table `importPkgsByName` of the client
plugin: key, import path and a known type used for the
reference-suppression block (a leading `=` marks a value reference). -/
def fixedPkgEntries : List (String × String × String) :=
  [("cobra", "github.com/spf13/cobra", "Command"),
   ("context", "golang.org/x/net/context", "Context"),
   ("credentials", "google.golang.org/grpc/credentials", "AuthInfo"),
   ("envconfig", "github.com/kelseyhightower/envconfig", "Decoder"),
   ("filepath", "path/filepath", "WalkFunc"),
   ("grpc", "google.golang.org/grpc", "ClientConn"),
   ("io", "io", "Reader"),
   ("iocodec", "github.com/fiorix/protoc-gen-cobra/iocodec", "Encoder"),
   ("ioutil", "io/ioutil", "=Discard"),
   ("json", "encoding/json", "Encoder"),
   ("log", "log", "Logger"),
   ("net", "net", "IP"),
   ("oauth", "google.golang.org/grpc/credentials/oauth", "TokenSource"),
   ("oauth2", "golang.org/x/oauth2", "Token"),
   ("os", "os", "File"),
   ("pflag", "github.com/spf13/pflag", "FlagSet"),
   ("template", "text/template", "Template"),
   ("time", "time", "Time"),
   ("tls", "crypto/tls", "Config"),
   ("x509", "crypto/x509", "Certificate")]

/-- Modelled from the spec: `generator.RegisterUniquePackageName` lives in
the repository's `generator` package, absent from the sources at hand;
the spec requires a deterministic, collision-avoiding assignment for the
fixed concern keys, which are pairwise distinct, so each key is its own
unique name. -/
def registerUniquePackageName (k : String) : String :=
  k

/-- Whether a known-type entry carries the leading `=` marker. -/
def eqPrefixed (s : String) : Bool :=
  match s.data with
  | c :: _ => c = '='
  | [] => false

/-- Drop the first character of a string (the `=` marker). -/
def strDrop1 (s : String) : String :=
  String.mk (s.data.drop 1)

/-- The alias table produced by `Init`: every fixed key is registered
and the key list is sorted. -/
def aliasTable (iterKeys : List String) : List (String × String) :=
  (sortStrings iterKeys).map (fun k => (k, registerUniquePackageName k))

/-- One line of the reference-suppression block emitted by `Generate`. -/
def suppressionLine (k : String) : String :=
  match fixedPkgEntries.lookup k with
  | none => ""
  | some (_, kt) =>
    if eqPrefixed kt then
      "var _ = " ++ registerUniquePackageName k ++ "." ++ strDrop1 kt
    else
      "var _ " ++ registerUniquePackageName k ++ "." ++ kt

/-- The reference-suppression block: fixed keys in sorted order. -/
def suppressionBlock (iterKeys : List String) : List String :=
  (sortStrings iterKeys).map suppressionLine

/-- One fixed import line emitted by `GenerateImports`. -/
def importLine (ip k : String) : String :=
  match fixedPkgEntries.lookup k with
  | none => ""
  | some (p, _) => registerUniquePackageName k ++ " " ++ goQuote (pathJoin ip p)

/-- The import block of `GenerateImports`: fixed packages in sorted key
order, then the derived cross-package imports in sorted alias order. -/
def importsBlock (ip : String) (iterKeys derivedKeys : List String)
    (m : String → Option String) : List String :=
  ("import (" :: (sortStrings iterKeys).map (importLine ip))
    ++ (sortStrings derivedKeys).map (fun n => n ++ " " ++ (m n).getD (""))
    ++ [")"]

/-- C3: generation is deterministic.  Whatever order the fixed
support-package keys and the derived import aliases are iterated in
(Go map iteration order is arbitrary), the alias table, the
reference-suppression block and the import block are identical, because
both key sets are sorted lexicographically before emission; in
particular re-running resolution on the same input reproduces the same
bytes. -/
theorem generation_deterministic (it₁ it₂ dk₁ dk₂ : List String)
    (m : String → Option String) (ip : String)
    (hit : it₁.Perm it₂) (hdk : dk₁.Perm dk₂) :
    aliasTable it₁ = aliasTable it₂
      ∧ suppressionBlock it₁ = suppressionBlock it₂
      ∧ importsBlock ip it₁ dk₁ m = importsBlock ip it₂ dk₂ m := by
  have hsit := sortStrings_perm_eq it₁ it₂ hit
  have hsdk := sortStrings_perm_eq dk₁ dk₂ hdk
  refine ⟨?_, ?_, ?_⟩
  · unfold aliasTable
    rw [hsit]
  · unfold suppressionBlock
    rw [hsit]
  · unfold importsBlock
    rw [hsit, hsdk]

/-- Witness for C3: two opposite iteration orders of a key sample yield
the same emitted blocks. -/
theorem generation_deterministic_witness :
    aliasTable ["io", "grpc", "cobra"] = aliasTable ["cobra", "io", "grpc"]
      ∧ suppressionBlock ["io", "grpc", "cobra"] = suppressionBlock ["cobra", "io", "grpc"]
      ∧ importsBlock "" ["io", "grpc", "cobra"] ["b_pb", "a_pb"] (fun _ => none)
          = importsBlock "" ["cobra", "io", "grpc"] ["a_pb", "b_pb"] (fun _ => none) :=
  generation_deterministic ["io", "grpc", "cobra"] ["cobra", "io", "grpc"]
    ["b_pb", "a_pb"] ["a_pb", "b_pb"] (fun _ => none) ""
    (by decide) (by decide)

/-- Observable events of a generated method body: one decoder read, the
RPC invocation, one stream send, closing the send side, the
close-and-receive of the aggregated reply, one stream receive, one
encoder write. -/
inductive Ev (α β : Type) where
  | decode
  | call
  | send (r : α)
  | closeSend
  | closeAndRecv
  | recv
  | encode (b : β)
deriving DecidableEq

/-- Environment a generated method body runs against: the successive
results of `in.Decode` (exhaustion of the list models `io.EOF`), the
error of the RPC invocation itself, the unary reply, per-value send
failures, the `CloseAndRecv` reply as a function of everything sent, the
successive results of `stream.Recv` (exhaustion models `io.EOF`, the
completion signal), and per-value encoder failures. -/
structure MethodEnv (α β : Type) where
  input : List (Except String α)
  openErr : Option String
  unaryResp : α → Except String β
  sendErr : α → Option String
  aggResp : List α → Except String β
  responses : List (Except String β)
  encodeErr : β → Option String

/-- The client-streaming send loop of the subcommand template: decode
until `io.EOF` (then `CloseSend` and break), return early on decode or
send errors, otherwise send each decoded value in order. -/
def sendLoop {α β : Type} (sendErr : α → Option String) :
    List (Except String α) → List (Ev α β) × List α × Option String
  | [] => ([Ev.decode, Ev.closeSend], [], none)
  | Except.error e :: _ => ([Ev.decode], [], some e)
  | Except.ok v :: rest =>
    match sendErr v with
    | some e => ([Ev.decode, Ev.send v], [], some e)
    | none =>
      let r := sendLoop sendErr rest
      (Ev.decode :: Ev.send v :: r.1, v :: r.2.1, r.2.2)

/-- The server-streaming receive loop of the subcommand template:
receive until `io.EOF` (then break and return nil), return early on
receive or encode errors, otherwise encode each received value in
order. -/
def recvLoop {α β : Type} (encodeErr : β → Option String) :
    List (Except String β) → List (Ev α β) × List β × Option String
  | [] => ([Ev.recv], [], none)
  | Except.error e :: _ => ([Ev.recv], [], some e)
  | Except.ok b :: rest =>
    match encodeErr b with
    | some e => ([Ev.recv, Ev.encode b], [], some e)
    | none =>
      let r := recvLoop encodeErr rest
      (Ev.recv :: Ev.encode b :: r.1, b :: r.2.1, r.2.2)

/-- Interpreter for the subcommand template's `Run` body, following the
template's conditionals on `(ClientStream, ServerStream)` literally:
with client streaming the stream is opened, the send loop runs to input
exhaustion, then either the receive loop (bidirectional) or one
`CloseAndRecv` plus one encode; without client streaming one value is
decoded and the call invoked, then either the receive loop (server
streaming) or one encode of the unary reply. -/
def runBody {α β : Type} (cs ss : Bool) (env : MethodEnv α β) :
    List (Ev α β) × Except String Unit :=
  if cs then
    match env.openErr with
    | some e => ([Ev.call], Except.error e)
    | none =>
      let s := sendLoop env.sendErr env.input
      match s.2.2 with
      | some e => (Ev.call :: s.1, Except.error e)
      | none =>
        if ss then
          let r := recvLoop (α := α) env.encodeErr env.responses
          (Ev.call :: (s.1 ++ r.1),
           match r.2.2 with
           | some e => Except.error e
           | none => Except.ok ())
        else
          match env.aggResp s.2.1 with
          | Except.error e => (Ev.call :: (s.1 ++ [Ev.closeAndRecv]), Except.error e)
          | Except.ok b =>
            match env.encodeErr b with
            | some e =>
              (Ev.call :: (s.1 ++ [Ev.closeAndRecv, Ev.encode b]), Except.error e)
            | none =>
              (Ev.call :: (s.1 ++ [Ev.closeAndRecv, Ev.encode b]), Except.ok ())
  else
    match env.input with
    | [] => ([Ev.decode], Except.error ("EOF"))
    | Except.error e :: _ => ([Ev.decode], Except.error e)
    | Except.ok v :: _ =>
      if ss then
        match env.openErr with
        | some e => ([Ev.decode, Ev.call], Except.error e)
        | none =>
          let r := recvLoop (α := α) env.encodeErr env.responses
          (Ev.decode :: Ev.call :: r.1,
           match r.2.2 with
           | some e => Except.error e
           | none => Except.ok ())
      else
        match env.unaryResp v with
        | Except.error e => ([Ev.decode, Ev.call], Except.error e)
        | Except.ok b =>
          match env.encodeErr b with
          | some e => ([Ev.decode, Ev.call, Ev.encode b], Except.error e)
          | none => ([Ev.decode, Ev.call, Ev.encode b], Except.ok ())

/-- On an all-successful input source with no send failures the send
loop sends every value in input order and ends with the end-of-input
`CloseSend`. -/
theorem sendLoop_ok {α β : Type} (sendErr : α → Option String)
    (h : ∀ v, sendErr v = none) (vs : List α) :
    sendLoop (β := β) sendErr (vs.map Except.ok)
      = ((vs.flatMap fun v => [Ev.decode, Ev.send v]) ++ [Ev.decode, Ev.closeSend],
         vs, none) := by
  induction vs with
  | nil => rfl
  | cons v rest ih =>
    simp only [List.map_cons, sendLoop, h v, ih, List.flatMap_cons, List.cons_append,
      List.nil_append, List.append_assoc]

/-- On a response stream that completes after delivering its values, with
no encode failures, the receive loop encodes every value in arrival order
and terminates on the completion signal. -/
theorem recvLoop_ok {α β : Type} (encodeErr : β → Option String)
    (h : ∀ b, encodeErr b = none) (bs : List β) :
    recvLoop (α := α) encodeErr (bs.map Except.ok)
      = ((bs.flatMap fun b => [Ev.recv, Ev.encode b]) ++ [Ev.recv], bs, none) := by
  induction bs with
  | nil => rfl
  | cons b rest ih =>
    simp only [List.map_cons, recvLoop, h b, ih, List.flatMap_cons, List.cons_append,
      List.nil_append, List.append_assoc]

/-- C1: the generated subcommand body is a 4-way dispatch on the
streaming flag pair matching the spec table: (false,false) decodes one
request, makes one call, encodes one response; (true,false) decodes and
sends in a loop until input end-of-file, closes the send side and
receives exactly one aggregated response which it encodes; (false,true)
decodes one request, invokes the call, then receives and encodes in a
loop terminated only by the completion signal — input beyond the first
unit is irrelevant; (true,true) runs the full send loop to input
exhaustion before the receive loop begins. -/
theorem streaming_shape_dispatch {α β : Type} (env : MethodEnv α β) :
    (∀ (v : α) (b : β) (t : List (Except String α)), env.input = Except.ok v :: t → env.unaryResp v = Except.ok b →
        env.encodeErr b = none →
        runBody false false env = ([Ev.decode, Ev.call, Ev.encode b], Except.ok ()))
      ∧ (∀ (vs : List α) (b : β), env.openErr = none → env.input = vs.map Except.ok →
          (∀ v, env.sendErr v = none) → env.aggResp vs = Except.ok b →
          env.encodeErr b = none →
          runBody true false env
            = (Ev.call :: ((vs.flatMap fun v => [Ev.decode, Ev.send v])
                ++ [Ev.decode, Ev.closeSend, Ev.closeAndRecv, Ev.encode b]),
               Except.ok ()))
      ∧ (∀ (v : α) (t : List (Except String α)) (bs : List β), env.input = Except.ok v :: t → env.openErr = none →
          env.responses = bs.map Except.ok → (∀ b, env.encodeErr b = none) →
          runBody false true env
            = (Ev.decode :: Ev.call
                :: ((bs.flatMap fun b => [Ev.recv, Ev.encode b]) ++ [Ev.recv]),
               Except.ok ()))
      ∧ (∀ (v : α) (t₁ t₂ : List (Except String α)),
          runBody false true { env with input := Except.ok v :: t₁ }
            = runBody false true { env with input := Except.ok v :: t₂ })
      ∧ (∀ (vs : List α) (bs : List β), env.openErr = none → env.input = vs.map Except.ok →
          (∀ v, env.sendErr v = none) → env.responses = bs.map Except.ok →
          (∀ b, env.encodeErr b = none) →
          runBody true true env
            = (Ev.call :: (((vs.flatMap fun v => [Ev.decode, Ev.send v])
                  ++ [Ev.decode, Ev.closeSend])
                ++ ((bs.flatMap fun b => [Ev.recv, Ev.encode b]) ++ [Ev.recv])),
               Except.ok ())) := by
  refine ⟨?_, ?_, ?_, ?_, ?_⟩
  · intro v b t h1 h2 h3
    simp [runBody, h1, h2, h3]
  · intro vs b h0 h1 h2 h3 h4
    simp [runBody, h0, h1, sendLoop_ok env.sendErr h2 vs, h3, h4]
  · intro v t bs h1 h0 h2 h3
    simp [runBody, h1, h0, h2, recvLoop_ok env.encodeErr h3 bs]
  · intro v t₁ t₂
    rfl
  · intro vs bs h0 h1 h2 h3 h4
    simp [runBody, h0, h1, h3, sendLoop_ok env.sendErr h2 vs, recvLoop_ok env.encodeErr h4 bs]

/-- Witness for C1: a concrete client-streaming run with two input units
performs two sequential sends followed by exactly one close-and-receive
and one encode. -/
theorem streaming_shape_witness :
    runBody true false
        (MethodEnv.mk [Except.ok 1, Except.ok 2] none (fun _ => Except.ok 0)
          (fun _ => none) (fun l => Except.ok l.length) [] (fun _ => none))
      = ([Ev.call, Ev.decode, Ev.send 1, Ev.decode, Ev.send 2,
          Ev.decode, Ev.closeSend, Ev.closeAndRecv, Ev.encode 2],
         Except.ok ()) :=
  (streaming_shape_dispatch
      (MethodEnv.mk [Except.ok 1, Except.ok 2] none (fun _ => Except.ok 0)
        (fun _ => none) (fun l => Except.ok l.length) [] (fun _ => none))).2.1
    [1, 2] 2 rfl rfl (fun _ => rfl) rfl rfl

/-- The ASCII digit for a value below ten. -/
def digitCh (n : Nat) : Char :=
  Char.ofNat (48 + n)

/-- Decimal rendering of a natural number, most significant digit
first, as produced by the Go marshalers for integer fields. -/
def natToChars (n : Nat) : List Char :=
  if n < 10 then [digitCh n]
  else natToChars (n / 10) ++ [digitCh (n % 10)]
decreasing_by exact Nat.div_lt_self (by omega) (by omega)

/-- Left fold of decimal digits onto an accumulator. -/
def chFrom (a : Nat) (l : List Char) : Nat :=
  l.foldl (fun x c => x * 10 + (c.toNat - 48)) a

/-- Numeric value of a digit string. -/
def charsToNat (l : List Char) : Nat :=
  chFrom 0 l

theorem digitCh_toNat (d : Nat) (h : d < 10) : (digitCh d).toNat = 48 + d := by
  interval_cases d <;> decide

theorem digitCh_isDigit (d : Nat) (h : d < 10) : (digitCh d).isDigit = true := by
  interval_cases d <;> decide

theorem chFrom_natToChars (n : Nat) :
    ∀ a, chFrom a (natToChars n) = a * 10 ^ (natToChars n).length + n := by
  induction n using Nat.strong_induction_on with
  | _ n ih =>
    intro a
    by_cases h : n < 10
    · rw [natToChars, if_pos h]
      simp only [chFrom, List.foldl, List.length_singleton, pow_one,
        digitCh_toNat n h]
      omega
    · rw [natToChars, if_neg h]
      have hdiv : n / 10 < n := Nat.div_lt_self (by omega) (by omega)
      unfold chFrom
      rw [List.foldl_append]
      have hih := ih (n / 10) hdiv a
      unfold chFrom at hih
      rw [hih]
      simp only [List.foldl, List.length_append, List.length_singleton,
        digitCh_toNat (n % 10) (Nat.mod_lt n (by omega))]
      rw [pow_succ]
      have hq : a * (10 ^ (natToChars (n / 10)).length * 10)
          = a * 10 ^ (natToChars (n / 10)).length * 10 := by ring
      rw [hq]
      generalize a * 10 ^ (natToChars (n / 10)).length = q
      omega

/-- Parsing the decimal rendering recovers the number. -/
theorem charsToNat_natToChars (n : Nat) : charsToNat (natToChars n) = n := by
  have h := chFrom_natToChars n 0
  simpa [charsToNat] using h

theorem natToChars_all_digits (n : Nat) :
    ∀ c ∈ natToChars n, c.isDigit = true := by
  induction n using Nat.strong_induction_on with
  | _ n ih =>
    intro c hc
    by_cases h : n < 10
    · rw [natToChars, if_pos h] at hc
      simp only [List.mem_singleton] at hc
      rw [hc]
      exact digitCh_isDigit n h
    · rw [natToChars, if_neg h] at hc
      rcases List.mem_append.mp hc with h1 | h1
      · exact ih (n / 10) (Nat.div_lt_self (by omega) (by omega)) c h1
      · simp only [List.mem_singleton] at h1
        rw [h1]
        exact digitCh_isDigit (n % 10) (Nat.mod_lt n (by omega))

theorem natToChars_ne_nil (n : Nat) : natToChars n ≠ [] := by
  by_cases h : n < 10
  · rw [natToChars, if_pos h]
    simp
  · rw [natToChars, if_neg h]
    simp

/-- Whitespace characters skipped between tokens by the structured
decoders. -/
def wsCh (c : Char) : Bool :=
  c = ' ' || c = '\n' || c = '\t' || c = '\r'

/-- Skip leading whitespace. -/
def skipWs (l : List Char) : List Char :=
  l.dropWhile wsCh

/-- Consume an expected literal from the front of the input. -/
def expectChars : List Char → List Char → Option (List Char)
  | [], input => some input
  | _ :: _, [] => none
  | e :: es, c :: cs => if c = e then expectChars es cs else none

/-- Consume a literal token, tolerating leading whitespace. -/
def tok (lit l : List Char) : Option (List Char) :=
  expectChars lit (skipWs l)

/-- Consume a decimal number token, tolerating leading whitespace. -/
def parseNatTok (l : List Char) : Option (Nat × List Char) :=
  if ((skipWs l).takeWhile Char.isDigit).isEmpty then none
  else some (charsToNat ((skipWs l).takeWhile Char.isDigit),
             (skipWs l).dropWhile Char.isDigit)

/-- Shorthand for the character list of a string literal. -/
def chs (s : String) : List Char :=
  s.data

/-- Boundary check: the input is exhausted or starts with a character
rejected by the predicate. -/
def headNot (p : Char → Bool) : List Char → Bool
  | [] => true
  | c :: _ => !p c

theorem expect_append (lit r : List Char) : expectChars lit (lit ++ r) = some r := by
  induction lit with
  | nil => rfl
  | cons e es ih => simp [expectChars, ih]

theorem skipWs_lit (lit r : List Char) (h1 : lit ≠ [])
    (h2 : wsCh (lit.headD ('!')) = false) : skipWs (lit ++ r) = lit ++ r := by
  cases lit with
  | nil => exact absurd rfl h1
  | cons c cs =>
    simp only [List.headD_cons] at h2
    simp [skipWs, List.cons_append, List.dropWhile_cons, h2]

theorem tok_lit (lit : List Char) (h1 : lit ≠ [])
    (h2 : wsCh (lit.headD ('!')) = false) (r : List Char) :
    tok lit (lit ++ r) = some r := by
  rw [tok, skipWs_lit lit r h1 h2, expect_append]

theorem skipWs_wsLead (p l : List Char) (h : ∀ c ∈ p, wsCh c = true) :
    skipWs (p ++ l) = skipWs l := by
  induction p with
  | nil => rfl
  | cons c cs ih =>
    simp only [skipWs, List.cons_append, List.dropWhile_cons, h c (by simp)]
    exact ih (fun d hd => h d (by simp [hd]))

theorem tok_ws (p lit : List Char) (hp : ∀ c ∈ p, wsCh c = true)
    (h1 : lit ≠ []) (h2 : wsCh (lit.headD ('!')) = false) (r : List Char) :
    tok lit (p ++ (lit ++ r)) = some r := by
  rw [tok, skipWs_wsLead p _ hp, ← tok, tok_lit lit h1 h2 r]

theorem takeWhile_all_append (p : Char → Bool) (l r : List Char)
    (hl : ∀ c ∈ l, p c = true) (hr : headNot p r = true) :
    (l ++ r).takeWhile p = l ∧ (l ++ r).dropWhile p = r := by
  induction l with
  | nil =>
    cases r with
    | nil => exact ⟨rfl, rfl⟩
    | cons c t =>
      simp only [headNot, Bool.not_eq_true'] at hr
      simp [List.takeWhile_cons, List.dropWhile_cons, hr]
  | cons c cs ih =>
    have hc := hl c (by simp)
    have ihspec := ih (fun d hd => hl d (by simp [hd]))
    simp [List.takeWhile_cons, List.dropWhile_cons, hc, ihspec.1, ihspec.2]

theorem wsCh_of_digit (c : Char) (h : c.isDigit = true) : wsCh c = false := by
  by_cases h1 : c = ' '
  · rw [h1] at h
    exact absurd h (by decide)
  · by_cases h2 : c = '\n'
    · rw [h2] at h
      exact absurd h (by decide)
    · by_cases h3 : c = '\t'
      · rw [h3] at h
        exact absurd h (by decide)
      · by_cases h4 : c = '\r'
        · rw [h4] at h
          exact absurd h (by decide)
        · simp [wsCh, h1, h2, h3, h4]

theorem headD_mem {α : Type} (l : List α) (d : α) (h : l ≠ []) : l.headD d ∈ l := by
  cases l with
  | nil => exact absurd rfl h
  | cons c cs => simp

/-- Consuming a rendered number from the input recovers the number and
leaves the boundary untouched. -/
theorem parseNat_eat (r : List Char) (hr : headNot Char.isDigit r = true) (n : Nat) :
    parseNatTok (natToChars n ++ r) = some (n, r) := by
  have hdig := natToChars_all_digits n
  have hne := natToChars_ne_nil n
  have hhead : (natToChars n).headD ('!') ∈ natToChars n := headD_mem _ _ hne
  have hskip : skipWs (natToChars n ++ r) = natToChars n ++ r :=
    skipWs_lit _ r hne (wsCh_of_digit _ (hdig _ hhead))
  have hsplit := takeWhile_all_append Char.isDigit (natToChars n) r hdig hr
  unfold parseNatTok
  rw [hskip, hsplit.1, hsplit.2, charsToNat_natToChars]
  rw [if_neg (by simp [List.isEmpty_iff, hne])]

/-- Model payload for the codec layer: a message with two integer
fields, mirroring the request shapes in the repository's examples. -/
structure MsgV where
  account : Nat
  amount : Nat
deriving DecidableEq

/-- Outcome of one `Decode(&v)` call: the distinguished end-of-input
signal (`io.EOF`), a decoded value, or an ordinary error. -/
inductive DecResult where
  | eof
  | ok (v : MsgV)
  | err (e : String)
deriving DecidableEq

/-- Model of the compact `json` encoder (`json.NewEncoder(w).Encode`):
one object per line. -/
def jsonEncodeC (v : MsgV) : List Char :=
  chs "\x7b" ++ (chs "\"account\"" ++ (chs ":" ++ (natToChars v.account
    ++ (chs "," ++ (chs "\"amount\"" ++ (chs ":" ++ (natToChars v.amount
    ++ (chs "\x7d" ++ chs "\n"))))))))

/-- Model of the `prettyjson` encoder (`json.Marshal` then `json.Indent`
with tab indentation, then a trailing newline). -/
def prettyJsonEncodeC (v : MsgV) : List Char :=
  chs "\x7b" ++ (chs "\n\t" ++ (chs "\"account\"" ++ (chs ":" ++ (natToChars v.account
    ++ (chs "," ++ (chs "\n\t" ++ (chs "\"amount\"" ++ (chs ":" ++ (natToChars v.amount
    ++ (chs "\n" ++ (chs "\x7d" ++ chs "\n")))))))))))

/-- The Go `xml.Header` constant, without its trailing newline. -/
def xmlHeaderLit : List Char :=
  chs "<?xml version=\"1.0\" encoding=\"UTF-8\"?>"

/-- Model of the `xml` encoder: header, tab-indented element, trailing
newline. -/
def xmlEncodeC (v : MsgV) : List Char :=
  xmlHeaderLit ++ (chs "\n" ++ (chs "<MsgV>" ++ (chs "\n\t" ++ (chs "<account>"
    ++ (natToChars v.account ++ (chs "</account>" ++ (chs "\n\t" ++ (chs "<amount>"
    ++ (natToChars v.amount ++ (chs "</amount>" ++ (chs "\n" ++ (chs "</MsgV>"
    ++ chs "\n"))))))))))))

/-- Model of the `yaml` encoder (`yaml.Marshal`): one `key: value` line
per field. -/
def yamlEncodeC (v : MsgV) : List Char :=
  chs "account:" ++ (chs " " ++ (natToChars v.account ++ (chs "\n"
    ++ (chs "amount:" ++ (chs " " ++ (natToChars v.amount ++ chs "\n"))))))

/-- Whitespace-tolerant parser for one JSON object of the model message,
as `json.NewDecoder(r).Decode` accepts both compact and indented
renderings. -/
def jsonParse (l : List Char) : Option MsgV :=
  (tok (chs "\x7b") l).bind fun l1 =>
  (tok (chs "\"account\"") l1).bind fun l2 =>
  (tok (chs ":") l2).bind fun l3 =>
  (parseNatTok l3).bind fun pa =>
  (tok (chs ",") pa.2).bind fun l4 =>
  (tok (chs "\"amount\"") l4).bind fun l5 =>
  (tok (chs ":") l5).bind fun l6 =>
  (parseNatTok l6).bind fun pb =>
  (tok (chs "\x7d") pb.2).map fun _ => MsgV.mk pa.1 pb.1

/-- Skip the XML processing instruction when present, as `xml.Decoder`
does. -/
def afterHdr (l : List Char) : List Char :=
  match tok xmlHeaderLit l with
  | some r => r
  | none => l

/-- Parser for one XML document of the model message. -/
def xmlParse (l : List Char) : Option MsgV :=
  (tok (chs "<MsgV>") (afterHdr l)).bind fun l1 =>
  (tok (chs "<account>") l1).bind fun l2 =>
  (parseNatTok l2).bind fun pa =>
  (tok (chs "</account>") pa.2).bind fun l3 =>
  (tok (chs "<amount>") l3).bind fun l4 =>
  (parseNatTok l4).bind fun pb =>
  (tok (chs "</amount>") pb.2).bind fun l5 =>
  (tok (chs "</MsgV>") l5).map fun _ => MsgV.mk pa.1 pb.1

/-- Parser for one YAML document of the model message. -/
def yamlParse (l : List Char) : Option MsgV :=
  (tok (chs "account:") l).bind fun l1 =>
  (parseNatTok l1).bind fun pa =>
  (tok (chs "amount:") pa.2).bind fun l2 =>
  (parseNatTok l2).map fun pb => MsgV.mk pa.1 pb.1

/-- Model of `json.NewDecoder(r).Decode`: exhausted (or all-whitespace)
input yields `io.EOF`; otherwise one value is decoded. -/
def jsonDecodeC (_old : MsgV) (l : List Char) : DecResult :=
  if (skipWs l).isEmpty then DecResult.eof
  else
    match jsonParse l with
    | some v => DecResult.ok v
    | none => DecResult.err ("json: malformed")

/-- Model of `xml.NewDecoder(r).Decode`: exhausted input yields
`io.EOF`; otherwise one document is decoded. -/
def xmlDecodeC (_old : MsgV) (l : List Char) : DecResult :=
  if (skipWs l).isEmpty then DecResult.eof
  else
    match xmlParse l with
    | some v => DecResult.ok v
    | none => DecResult.err ("xml: malformed")

/-- Modelled from the library behaviour of `yaml.Unmarshal` (gopkg.in
yaml, external to the repository): an empty document returns success and
leaves the target unchanged; otherwise one document is decoded. -/
def yamlUnmarshalM (old : MsgV) (b : List Char) : DecResult :=
  if b.isEmpty then DecResult.ok old
  else
    match yamlParse b with
    | some v => DecResult.ok v
    | none => DecResult.err ("yaml: malformed")

/-- Embedding of `yamlDecoder.Decode` (iocodec): reads the whole source
with `ioutil.ReadAll`, then unmarshals the bytes. -/
def yamlDecodeWrapper (old : MsgV) (l : List Char) : DecResult :=
  yamlUnmarshalM old l

/-- The decoder registry `DefaultDecoders` of iocodec: `xml`, `json`
and `yaml` only. -/
def DefaultDecodersM : List (String × (MsgV → List Char → DecResult)) :=
  [("xml", xmlDecodeC), ("json", jsonDecodeC), ("yaml", yamlDecodeWrapper)]

/-- The encoder registry `DefaultEncoders` of iocodec: `xml`, `json`,
`prettyjson` and `yaml`. -/
def DefaultEncodersM : List (String × (MsgV → List Char)) :=
  [("xml", xmlEncodeC), ("json", jsonEncodeC), ("prettyjson", prettyJsonEncodeC),
   ("yaml", yamlEncodeC)]

theorem headNot_lit (p : Char → Bool) (lit r : List Char) (h1 : lit ≠ [])
    (h2 : p (lit.headD ('!')) = false) : headNot p (lit ++ r) = true := by
  cases lit with
  | nil => exact absurd rfl h1
  | cons c cs =>
    simp only [List.headD_cons] at h2
    simp [headNot, h2]

theorem isEmpty_skipWs_lit (lit r : List Char) (h1 : lit ≠ [])
    (h2 : wsCh (lit.headD ('!')) = false) :
    (skipWs (lit ++ r)).isEmpty = false := by
  rw [skipWs_lit lit r h1 h2]
  cases lit with
  | nil => exact absurd rfl h1
  | cons c cs => simp

theorem jsonParse_enc (v : MsgV) : jsonParse (jsonEncodeC v) = some v := by
  unfold jsonParse jsonEncodeC
  rw [tok_lit (chs "\x7b") (by decide) (by decide)]
  simp only [Option.some_bind]
  rw [tok_lit (chs "\"account\"") (by decide) (by decide)]
  simp only [Option.some_bind]
  rw [tok_lit (chs ":") (by decide) (by decide)]
  simp only [Option.some_bind]
  rw [parseNat_eat _ (headNot_lit Char.isDigit (chs ",") _ (by decide) (by decide)) v.account]
  simp only [Option.some_bind]
  rw [tok_lit (chs ",") (by decide) (by decide)]
  simp only [Option.some_bind]
  rw [tok_lit (chs "\"amount\"") (by decide) (by decide)]
  simp only [Option.some_bind]
  rw [tok_lit (chs ":") (by decide) (by decide)]
  simp only [Option.some_bind]
  rw [parseNat_eat _ (headNot_lit Char.isDigit (chs "\x7d") _ (by decide) (by decide)) v.amount]
  simp only [Option.some_bind]
  rw [tok_lit (chs "\x7d") (by decide) (by decide)]
  simp only [Option.map_some']

theorem jsonParse_pretty_enc (v : MsgV) : jsonParse (prettyJsonEncodeC v) = some v := by
  unfold jsonParse prettyJsonEncodeC
  rw [tok_lit (chs "\x7b") (by decide) (by decide)]
  simp only [Option.some_bind]
  rw [tok_ws (chs "\n\t") (chs "\"account\"") (by decide) (by decide) (by decide)]
  simp only [Option.some_bind]
  rw [tok_lit (chs ":") (by decide) (by decide)]
  simp only [Option.some_bind]
  rw [parseNat_eat _ (headNot_lit Char.isDigit (chs ",") _ (by decide) (by decide)) v.account]
  simp only [Option.some_bind]
  rw [tok_lit (chs ",") (by decide) (by decide)]
  simp only [Option.some_bind]
  rw [tok_ws (chs "\n\t") (chs "\"amount\"") (by decide) (by decide) (by decide)]
  simp only [Option.some_bind]
  rw [tok_lit (chs ":") (by decide) (by decide)]
  simp only [Option.some_bind]
  rw [parseNat_eat _ (headNot_lit Char.isDigit (chs "\n") _ (by decide) (by decide)) v.amount]
  simp only [Option.some_bind]
  rw [tok_ws (chs "\n") (chs "\x7d") (by decide) (by decide) (by decide)]
  simp only [Option.map_some']

theorem afterHdr_lit (r : List Char) : afterHdr (xmlHeaderLit ++ r) = r := by
  unfold afterHdr
  rw [tok_lit xmlHeaderLit (by decide) (by decide)]

theorem xmlParse_enc (v : MsgV) : xmlParse (xmlEncodeC v) = some v := by
  unfold xmlParse xmlEncodeC
  rw [afterHdr_lit]
  rw [tok_ws (chs "\n") (chs "<MsgV>") (by decide) (by decide) (by decide)]
  simp only [Option.some_bind]
  rw [tok_ws (chs "\n\t") (chs "<account>") (by decide) (by decide) (by decide)]
  simp only [Option.some_bind]
  rw [parseNat_eat _ (headNot_lit Char.isDigit (chs "</account>") _ (by decide) (by decide)) v.account]
  simp only [Option.some_bind]
  rw [tok_lit (chs "</account>") (by decide) (by decide)]
  simp only [Option.some_bind]
  rw [tok_ws (chs "\n\t") (chs "<amount>") (by decide) (by decide) (by decide)]
  simp only [Option.some_bind]
  rw [parseNat_eat _ (headNot_lit Char.isDigit (chs "</amount>") _ (by decide) (by decide)) v.amount]
  simp only [Option.some_bind]
  rw [tok_lit (chs "</amount>") (by decide) (by decide)]
  simp only [Option.some_bind]
  rw [tok_ws (chs "\n") (chs "</MsgV>") (by decide) (by decide) (by decide)]
  simp only [Option.map_some']

theorem parseNat_eat_ws (p : List Char) (hp : ∀ c ∈ p, wsCh c = true)
    (r : List Char) (hr : headNot Char.isDigit r = true) (n : Nat) :
    parseNatTok (p ++ (natToChars n ++ r)) = some (n, r) := by
  have hdig := natToChars_all_digits n
  have hne := natToChars_ne_nil n
  have hhead : (natToChars n).headD ('!') ∈ natToChars n := headD_mem _ _ hne
  have hskip : skipWs (p ++ (natToChars n ++ r)) = natToChars n ++ r := by
    rw [skipWs_wsLead p _ hp]
    exact skipWs_lit _ r hne (wsCh_of_digit _ (hdig _ hhead))
  have hsplit := takeWhile_all_append Char.isDigit (natToChars n) r hdig hr
  unfold parseNatTok
  rw [hskip, hsplit.1, hsplit.2, charsToNat_natToChars]
  rw [if_neg (by simp [List.isEmpty_iff, hne])]

theorem yamlParse_enc (v : MsgV) : yamlParse (yamlEncodeC v) = some v := by
  unfold yamlParse yamlEncodeC
  rw [tok_lit (chs "account:") (by decide) (by decide)]
  simp only [Option.some_bind]
  rw [parseNat_eat_ws (chs " ") (by decide) _
        (headNot_lit Char.isDigit (chs "\n") _ (by decide) (by decide)) v.account]
  simp only [Option.some_bind]
  rw [tok_ws (chs "\n") (chs "amount:") (by decide) (by decide) (by decide)]
  simp only [Option.some_bind]
  rw [parseNat_eat_ws (chs " ") (by decide) _ (by decide) v.amount]
  simp only [Option.map_some']

theorem jsonDecodeC_enc (old v : MsgV) :
    jsonDecodeC old (jsonEncodeC v) = DecResult.ok v := by
  unfold jsonDecodeC
  rw [show (skipWs (jsonEncodeC v)).isEmpty = false from by
        unfold jsonEncodeC
        exact isEmpty_skipWs_lit (chs "\x7b") _ (by decide) (by decide)]
  rw [if_neg (by simp)]
  rw [jsonParse_enc v]

theorem jsonDecodeC_pretty_enc (old v : MsgV) :
    jsonDecodeC old (prettyJsonEncodeC v) = DecResult.ok v := by
  unfold jsonDecodeC
  rw [show (skipWs (prettyJsonEncodeC v)).isEmpty = false from by
        unfold prettyJsonEncodeC
        exact isEmpty_skipWs_lit (chs "\x7b") _ (by decide) (by decide)]
  rw [if_neg (by simp)]
  rw [jsonParse_pretty_enc v]

theorem xmlDecodeC_enc (old v : MsgV) :
    xmlDecodeC old (xmlEncodeC v) = DecResult.ok v := by
  unfold xmlDecodeC
  rw [show (skipWs (xmlEncodeC v)).isEmpty = false from by
        unfold xmlEncodeC
        exact isEmpty_skipWs_lit xmlHeaderLit _ (by decide) (by decide)]
  rw [if_neg (by simp)]
  rw [xmlParse_enc v]

theorem yamlDecodeC_enc (old v : MsgV) :
    yamlDecodeWrapper old (yamlEncodeC v) = DecResult.ok v := by
  unfold yamlDecodeWrapper yamlUnmarshalM
  rw [show (yamlEncodeC v).isEmpty = false from by
        unfold yamlEncodeC
        cases h : chs "account:" ++ (chs " " ++ (natToChars v.account ++ (chs "\n"
            ++ (chs "amount:" ++ (chs " " ++ (natToChars v.amount ++ chs "\n"))))))
        · exact absurd h (by simp [chs])
        · simp]
  rw [if_neg (by simp)]
  rw [yamlParse_enc v]

/-- C7 counterexample: the encoder registry supports `prettyjson` but
the decoder registry has no `prettyjson` entry at all, so "decoding the
produced bytes with that same format's decoder" is impossible for the
pretty-structured format. -/
theorem prettyjson_decoder_missing :
    (DefaultEncodersM.lookup ("prettyjson")).isSome = true
      ∧ DefaultDecodersM.lookup ("prettyjson") = none :=
  ⟨rfl, rfl⟩

/-- C7 amended: for every format key registered in BOTH registries
(`xml`, `json`, `yaml`), encoding a value and decoding the produced
bytes with the same key's decoder recovers the value; the `prettyjson`
format has no decoder of its own, but its output is recovered by the
`json` decoder. -/
theorem codec_round_trip_amended (old v : MsgV) :
    (∀ k d e, DefaultDecodersM.lookup k = some d → DefaultEncodersM.lookup k = some e →
        d old (e v) = DecResult.ok v)
      ∧ jsonDecodeC old (prettyJsonEncodeC v) = DecResult.ok v := by
  refine ⟨?_, jsonDecodeC_pretty_enc old v⟩
  intro k d e hd he
  by_cases h1 : k = "xml"
  · subst h1
    rw [show DefaultDecodersM.lookup ("xml") = some xmlDecodeC from rfl] at hd
    rw [show DefaultEncodersM.lookup ("xml") = some xmlEncodeC from rfl] at he
    simp only [Option.some.injEq] at hd he
    rw [← hd, ← he]
    exact xmlDecodeC_enc old v
  · by_cases h2 : k = "json"
    · subst h2
      rw [show DefaultDecodersM.lookup ("json") = some jsonDecodeC from rfl] at hd
      rw [show DefaultEncodersM.lookup ("json") = some jsonEncodeC from rfl] at he
      simp only [Option.some.injEq] at hd he
      rw [← hd, ← he]
      exact jsonDecodeC_enc old v
    · by_cases h3 : k = "yaml"
      · subst h3
        rw [show DefaultDecodersM.lookup ("yaml") = some yamlDecodeWrapper from rfl] at hd
        rw [show DefaultEncodersM.lookup ("yaml") = some yamlEncodeC from rfl] at he
        simp only [Option.some.injEq] at hd he
        rw [← hd, ← he]
        exact yamlDecodeC_enc old v
      · exfalso
        have hnone : DefaultDecodersM.lookup k = none := by
          simp only [DefaultDecodersM, List.lookup]
          rw [show (k == "xml") = false from by simp [h1],
              show (k == "json") = false from by simp [h2],
              show (k == "yaml") = false from by simp [h3]]
        rw [hnone] at hd
        exact Option.noConfusion hd

/-- Witness for the amended C7 theorem: the json round trip at a
concrete value. -/
theorem codec_round_trip_witness :
    jsonDecodeC (MsgV.mk 0 0) (jsonEncodeC (MsgV.mk 12 34)) = DecResult.ok (MsgV.mk 12 34) :=
  (codec_round_trip_amended (MsgV.mk 0 0) (MsgV.mk 12 34)).1 "json" jsonDecodeC jsonEncodeC
    rfl rfl

/-- C6: decoding from an exhausted (empty) source yields the
end-of-input signal for the `json` and `xml` decoders, but the `yaml`
decoder wrapper (`ReadAll` + `yaml.Unmarshal`) returns plain success
with the target left unchanged — a silent success, not the sentinel the
generated streaming loops test for. -/
theorem empty_input_decoder_signals :
    jsonDecodeC (MsgV.mk 0 0) [] = DecResult.eof
      ∧ xmlDecodeC (MsgV.mk 0 0) [] = DecResult.eof
      ∧ yamlDecodeWrapper (MsgV.mk 7 9) [] = DecResult.ok (MsgV.mk 7 9)
      ∧ yamlDecodeWrapper (MsgV.mk 7 9) [] ≠ DecResult.eof
      ∧ DefaultDecodersM.lookup ("yaml") = some yamlDecodeWrapper :=
  ⟨rfl, rfl, rfl, by decide, rfl⟩

/-- The run-time configuration fields of the generated per-service
config that `_RoundTrip` and `_Dial` read. -/
structure RTConfig where
  serverAddr : String
  requestFile : String
  printSampleRequest : Bool
  responseFormat : String

/-- External world the round-trip helper runs against: whether a request
file opens, its contents, standard input, and the dial outcome. -/
structure RTEnv where
  fileOk : String → Bool
  fileContents : String → List Char
  stdin : List Char
  dialErr : Option String

/-- The per-method body handed to `_RoundTrip`: given the selected
decoder format key, the input bytes and the response encoder, it
produces the values written to the output sink and an outcome. -/
def RTFn : Type :=
  String → List Char → (MsgV → List Char) → List (List Char) × Except String Unit

/-- Character-level model of `filepath.Ext`: the suffix starting at the
final dot of the final path element, empty when there is none. -/
def filepathExt (s : String) : String :=
  match s.data.reverse.drop ((s.data.reverse.takeWhile
      (fun c => !(c == '.') && !(c == '/'))).length) with
  | c :: _ =>
    if c = '.' then
      String.mk (('.') :: (s.data.reverse.takeWhile
        (fun c => !(c == '.') && !(c == '/'))).reverse)
    else ""
  | [] => ""

/-- The extension with its leading dot stripped, as `_RoundTrip` does
before the decoder lookup. -/
def stripDot (s : String) : String :=
  match s.data with
  | c :: t => if c = '.' then String.mk t else s
  | [] => s

/-- Embedding of the generated `_RoundTrip` helper: resolve the response
encoder (empty key falls back to `json`, unknown keys are an error),
short-circuit to printing the sample when the flag is set, select the
request decoder from the file extension (stdin forces `json`), dial,
and only then run the method body.  The result records whether a dial
was attempted, the values written to the output sink, and the
outcome. -/
def roundTrip (cfg : RTConfig) (env : RTEnv) (sample : MsgV) (fn : RTFn) :
    Bool × List (List Char) × Except String Unit :=
  match (if cfg.responseFormat = "" then DefaultEncodersM.lookup ("json")
         else DefaultEncodersM.lookup cfg.responseFormat) with
  | none =>
    (false, [], Except.error ("invalid response format: " ++ goQuote cfg.responseFormat))
  | some em =>
    if cfg.printSampleRequest then
      (false, [em sample], Except.ok ())
    else
      match (if cfg.requestFile = "" ∨ cfg.requestFile = "-" then
               Except.ok (("json" : String), env.stdin)
             else if env.fileOk cfg.requestFile = false then
               Except.error ("request file: open error")
             else
               match DefaultDecodersM.lookup (stripDot (filepathExt cfg.requestFile)) with
               | none =>
                 Except.error ("invalid request file format: "
                   ++ goQuote (stripDot (filepathExt cfg.requestFile)))
               | some _ =>
                 Except.ok (stripDot (filepathExt cfg.requestFile),
                   env.fileContents cfg.requestFile)) with
      | Except.error e => (false, [], Except.error e)
      | Except.ok sel =>
        match env.dialErr with
        | some e => (true, [], Except.error e)
        | none => (true, (fn sel.1 sel.2 em).1, (fn sel.1 sel.2 em).2)

/-- With the sample flag set, the round-trip helper is fully determined
by the response-format key: either the invalid-format error, or one
write of the encoded sample. -/
theorem roundTrip_sample_eval (cfg : RTConfig) (env : RTEnv) (s : MsgV) (fn : RTFn)
    (h : cfg.printSampleRequest = true) :
    roundTrip cfg env s fn
      = match (if cfg.responseFormat = "" then DefaultEncodersM.lookup ("json")
               else DefaultEncodersM.lookup cfg.responseFormat) with
        | none =>
          (false, [], Except.error ("invalid response format: " ++ goQuote cfg.responseFormat))
        | some em => (false, [em s], Except.ok ()) := by
  unfold roundTrip
  cases (if cfg.responseFormat = "" then DefaultEncodersM.lookup ("json")
         else DefaultEncodersM.lookup cfg.responseFormat) with
  | none => rfl
  | some em => simp [h]

/-- C2 counterexample: with the sample flag set but an unknown response
format, the helper writes NOTHING (and errors), refuting "writes exactly
one encoded value" for every configuration with the flag set. -/
theorem sample_flag_invalid_format_writes_nothing :
    (RTConfig.mk "localhost:8080" "" true "bogus").printSampleRequest = true
      ∧ roundTrip (RTConfig.mk "localhost:8080" "" true "bogus")
          (RTEnv.mk (fun _ => true) (fun _ => []) [] none) (MsgV.mk 0 0)
          (fun _ _ _ => ([], Except.ok ()))
        = (false, [], Except.error ("invalid response format: \"bogus\"")) :=
  ⟨rfl, rfl⟩

/-- C2 amended: whenever the sample flag is set, no dial is attempted
(regardless of any field, in particular the server address), and the
body — the streaming-shape dispatch — is never run; and when the
response-format key is additionally empty or registered, exactly one
encoded value, the sample, is written and the helper succeeds. -/
theorem sample_flag_no_dial_one_write (cfg : RTConfig) (env : RTEnv) (s : MsgV)
    (fn : RTFn) (h : cfg.printSampleRequest = true) :
    ((roundTrip cfg env s fn).1 = false)
      ∧ (∀ e, DefaultEncodersM.lookup cfg.responseFormat = some e →
          roundTrip cfg env s fn = (false, [e s], Except.ok ()))
      ∧ (cfg.responseFormat = "" →
          roundTrip cfg env s fn = (false, [jsonEncodeC s], Except.ok ()))
      ∧ (∀ (fn₂ : RTFn) (a₂ f₂ : String),
          roundTrip cfg env s fn
            = roundTrip (RTConfig.mk a₂ f₂ cfg.printSampleRequest cfg.responseFormat)
                env s fn₂) := by
  refine ⟨?_, ?_, ?_, ?_⟩
  · rw [roundTrip_sample_eval cfg env s fn h]
    cases (if cfg.responseFormat = "" then DefaultEncodersM.lookup ("json")
           else DefaultEncodersM.lookup cfg.responseFormat) with
    | none => rfl
    | some em => rfl
  · intro e he
    rw [roundTrip_sample_eval cfg env s fn h]
    by_cases hrf : cfg.responseFormat = ""
    · rw [hrf] at he
      rw [show DefaultEncodersM.lookup ("") = none from rfl] at he
      exact Option.noConfusion he
    · rw [if_neg hrf, he]
  · intro hrf
    rw [roundTrip_sample_eval cfg env s fn h]
    rw [if_pos hrf]
    rw [show DefaultEncodersM.lookup ("json") = some jsonEncodeC from rfl]
  · intro fn₂ a₂ f₂
    rw [roundTrip_sample_eval cfg env s fn h,
        roundTrip_sample_eval (RTConfig.mk a₂ f₂ cfg.printSampleRequest cfg.responseFormat)
          env s fn₂ h]

/-- Witness for the amended C2 theorem: a concrete sample print with the
yaml response format attempts no dial and writes the encoded sample
once. -/
theorem sample_flag_witness :
    roundTrip (RTConfig.mk "localhost:8080" "req.json" true "yaml")
        (RTEnv.mk (fun _ => true) (fun _ => []) [] none) (MsgV.mk 3 4)
        (fun _ _ _ => ([], Except.ok ()))
      = (false, [yamlEncodeC (MsgV.mk 3 4)], Except.ok ()) :=
  (sample_flag_no_dial_one_write (RTConfig.mk "localhost:8080" "req.json" true "yaml")
      (RTEnv.mk (fun _ => true) (fun _ => []) [] none) (MsgV.mk 3 4)
      (fun _ _ _ => ([], Except.ok ())) rfl).2.1 yamlEncodeC rfl

/-- C10: the response-format key is validated before the sample check:
an unknown nonempty key makes the helper fail with the invalid-format
error writing nothing even when the sample flag is set; an empty key
silently falls back to the json encoder; a registered key encodes the
sample with that key's encoder. -/
theorem response_format_precedence (cfg : RTConfig) (env : RTEnv) (s : MsgV)
    (fn : RTFn) (h : cfg.printSampleRequest = true) :
    (cfg.responseFormat ≠ "" → DefaultEncodersM.lookup cfg.responseFormat = none →
        roundTrip cfg env s fn
          = (false, [], Except.error ("invalid response format: " ++ goQuote cfg.responseFormat)))
      ∧ (cfg.responseFormat = "" →
          roundTrip cfg env s fn = (false, [jsonEncodeC s], Except.ok ()))
      ∧ (∀ e, DefaultEncodersM.lookup cfg.responseFormat = some e →
          roundTrip cfg env s fn = (false, [e s], Except.ok ())) := by
  refine ⟨?_, ?_, ?_⟩
  · intro hrf hnone
    rw [roundTrip_sample_eval cfg env s fn h]
    rw [if_neg hrf, hnone]
  · intro hrf
    rw [roundTrip_sample_eval cfg env s fn h]
    rw [if_pos hrf]
    rw [show DefaultEncodersM.lookup ("json") = some jsonEncodeC from rfl]
  · intro e he
    rw [roundTrip_sample_eval cfg env s fn h]
    by_cases hrf : cfg.responseFormat = ""
    · rw [hrf] at he
      rw [show DefaultEncodersM.lookup ("") = none from rfl] at he
      exact Option.noConfusion he
    · rw [if_neg hrf, he]

/-- Witness for C10: an unknown response format together with the sample
flag yields the invalid-format error and writes nothing. -/
theorem response_format_precedence_witness :
    roundTrip (RTConfig.mk "localhost:8080" "" true "bogus2")
        (RTEnv.mk (fun _ => true) (fun _ => []) [] none) (MsgV.mk 1 2)
        (fun _ _ _ => ([], Except.ok ()))
      = (false, [], Except.error ("invalid response format: \"bogus2\"")) :=
  (response_format_precedence (RTConfig.mk "localhost:8080" "" true "bogus2")
      (RTEnv.mk (fun _ => true) (fun _ => []) [] none) (MsgV.mk 1 2)
      (fun _ _ _ => ([], Except.ok ())) rfl).1 (by decide) rfl
